import Mathlib

/-!
# Verification of the rakuyomi-android content pipeline

Shallow embedding of the content-extraction and acquisition pipeline of the
`rakuyomi-android` backend (`src/backend/android_ffi/src/`):

* `downloader.rs` — `download_chapter_pages`
* `cbz.rs` — `create_cbz`
* `lib.rs` — `rakuyomi_create_cbz_inner`
* `sources/mangapill.rs` and `sources/weebcentral.rs` — the per-source
  extractors (`parse_chapters`, `parse_pages`, `parse_manga_details`).

Modelling conventions:

* Chapter numbers are modelled as exact rationals (`ℚ`).  The Rust code
  parses them with `str::parse::<f64>`; on the decimal literals produced by
  the extraction regexes the parse is exact up to rounding, which is
  monotone, so ordering statements transfer.  The model of the float parser
  (`rustParseFloat`) covers the plain decimal subset of Rust's `f64`
  grammar (optional sign, digits, optional fractional part); exponent
  notation and the special literals `inf`/`infinity`/`nan` are treated as
  parse failures.
* Regex capture extraction is treated as the environment: each extractor
  model takes the sequence of per-match capture groups that
  `Regex::captures_iter` produced on the markup, and models everything the
  Rust code does with those captures.  Substring tests (`str::contains`)
  are modelled exactly.
* Network and filesystem calls are oracles supplied in an environment
  record; the functions return the trace of successful filesystem effects
  together with their result value.  Error payloads (the formatted `{}`
  interpolations) are abstracted to fixed message prefixes.
-/

/-! ## String and number helpers -/

/-- Decimal digit list to its numeric value (helper for the float parser). -/
def digitsVal (l : List Char) : Nat :=
  l.foldl (fun a c => a * 10 + (c.toNat - 48)) 0

/-- Split a character list at every character satisfying `p` (the shared
worker behind the `/`, `.` and whitespace splitters; always returns at
least one part). -/
def splitWhen (p : Char → Bool) : List Char → List (List Char)
  | [] => [[]]
  | c :: rest =>
    if p c then [] :: splitWhen p rest
    else
      match splitWhen p rest with
      | [] => [[c]]
      | h :: t => (c :: h) :: t

/-- Split a character list at every occurrence of `sep`. -/
def splitOnChar (sep : Char) (l : List Char) : List (List Char) :=
  splitWhen (fun c => c == sep) l

/-- Split at every `'.'` (helper for the float parser). -/
def splitOnDot (l : List Char) : List (List Char) :=
  splitOnChar '.' l

/-- Model of `str::parse::<f64>` on an unsigned literal, restricted to the
plain decimal subset of Rust's float grammar: `digits`, `digits.digits`,
`digits.` or `.digits` (at least one digit overall).  Exponents and the
special literals `inf`/`infinity`/`nan` are not modelled and count as
failures. -/
def rustParseFloatPos (s : String) : Option ℚ :=
  match splitOnDot s.data with
  | [w] =>
    if w ≠ [] ∧ w.all Char.isDigit then some (digitsVal w) else none
  | [w, f] =>
    if (w ≠ [] ∨ f ≠ []) ∧ w.all Char.isDigit ∧ f.all Char.isDigit then
      some ((digitsVal w : ℚ) + (digitsVal f : ℚ) / 10 ^ f.length)
    else none
  | _ => none

/-- Model of `str::parse::<f64>` (see `rustParseFloatPos` for the covered
grammar), including an optional leading sign. -/
def rustParseFloat (s : String) : Option ℚ :=
  match s.data with
  | '-' :: r => (rustParseFloatPos (String.mk r)).map Neg.neg
  | '+' :: r => rustParseFloatPos (String.mk r)
  | _ => rustParseFloatPos s

/-- Model of Rust's `format!("{:03}", n)`: the decimal representation of
`n` left-padded with `'0'` to at least three characters. -/
def pad3 (n : Nat) : String :=
  let s := Nat.repr n
  String.mk (List.replicate (3 - s.length) '0') ++ s

/-- Whether `pat` occurs as a contiguous sublist of `l` (helper for
`strContains`). -/
def subListAt (pat : List Char) : List Char → Bool
  | [] => pat.isEmpty
  | c :: rest => pat.isPrefixOf (c :: rest) || subListAt pat rest

/-- Model of Rust's `str::contains` (substring test). -/
def strContains (s pat : String) : Bool :=
  subListAt pat.data s.data

/-- Model of Rust's `str::ends_with`. -/
def strEndsWith (s sfx : String) : Bool :=
  sfx.data.reverse.isPrefixOf s.data.reverse

/-- Model of `str::strip_prefix(p).map(..).unwrap_or_default()` as used for
entity ids: the remainder after the prefix when `s` starts with `p`,
otherwise the empty string. -/
def dropPrefixOrEmpty (p s : String) : String :=
  if p.data.isPrefixOf s.data then String.mk (s.data.drop p.data.length) else ""

/-- Model of Rust's `str::trim` (strip leading and trailing whitespace). -/
def rustTrim (s : String) : String :=
  String.mk (((s.data.dropWhile Char.isWhitespace).reverse.dropWhile
    Char.isWhitespace).reverse)

/-- Model of `Path::new(s).file_name()`: the last nonempty `/`-separated
component.  The special components `.` and `..` yield `none` (Rust skips
`.` components and returns `none` on a trailing `..`; the inputs here are
URLs, where neither occurs). -/
def pathFileName (s : String) : Option String :=
  match ((splitOnChar '/' s.data).filter (· ≠ [])).getLast? with
  | none => none
  | some c => if c = ['.'] ∨ c = ['.', '.'] then none else some (String.mk c)

/-- Model of `Path::new(s).extension().and_then(|e| e.to_str())`: the part
of the file name after its last `.`, provided the part before that dot is
nonempty; `none` when the file name has no dot (the `to_str` step never
fails on a Rust `String` input). -/
def pathExtension (s : String) : Option String :=
  (pathFileName s).bind fun f =>
    match splitOnChar '.' f.data with
    | [_] => none
    | parts =>
      let stem := List.intercalate ['.'] parts.dropLast
      if stem = [] then none else some (String.mk (parts.getLast?.getD []))

/-- Model of `decode_html_entities` (identical in both sources up to the two
extra numeric entities of WeebCentral; this is the WeebCentral variant,
which is a superset — MangaPill's variant omits the last two replacements). -/
def decodeHtmlEntitiesWC (s : String) : String :=
  ((((((((s.replace "&amp;" "&").replace "&lt;" "<").replace "&gt;" ">").replace
      "&quot;" "\"").replace "&#39;" "'").replace "&#x27;" "'").replace
      "&#x2F;" "/").replace "&nbsp;" " ")

/-- `decode_html_entities` of `mangapill.rs` (six replacements). -/
def decodeHtmlEntitiesMP (s : String) : String :=
  (((((s.replace "&amp;" "&").replace "&lt;" "<").replace "&gt;" ">").replace
      "&quot;" "\"").replace "&#39;" "'").replace "&nbsp;" " "

/-- Fuel-indexed worker for `stripTags`; the fuel is the input length, which
bounds the number of steps, so the out-of-fuel branch is unreachable. -/
def stripTagsAux : Nat → List Char → List Char
  | 0, l => l
  | _ + 1, [] => []
  | fuel + 1, c :: rest =>
    if c = '<' then
      match rest.span (· ≠ '>') with
      | (inner, '>' :: after) =>
        if inner.isEmpty then c :: stripTagsAux fuel rest
        else stripTagsAux fuel after
      | _ => c :: stripTagsAux fuel rest
    else c :: stripTagsAux fuel rest

/-- Model of `tag_regex.replace_all(input, "")` with pattern `<[^>]+>`:
removes every maximal `<…>` span with a nonempty interior. -/
def stripTags (s : String) : String :=
  String.mk (stripTagsAux s.data.length s.data)

/-- Model of `split_whitespace().collect::<Vec<_>>().join(" ").trim()`. -/
def collapseWhitespace (s : String) : String :=
  String.intercalate " "
    (((splitWhen Char.isWhitespace s.data).filter (· ≠ [])).map String.mk)

/-- Model of `clean_html` of `mangapill.rs`: strip tags, then normalize
whitespace. -/
def cleanHtml (s : String) : String :=
  collapseWhitespace (stripTags s)

/-- The suffix of `s` after its last space, `none` when `s` has no space:
model of `s.rfind(' ')` followed by `s[pos+1..]`. -/
def afterLastSpace? (s : String) : Option String :=
  match (s.data.reverse.span (· ≠ ' ')) with
  | (_, []) => none
  | (tokRev, _) => some (String.mk tokRev.reverse)

/-! ## Data model (§3 of the spec) -/

/-- A chapter entity as serialized by `parse_chapters` of `mangapill.rs`
(its JSON object has no `volume` key).  `chapter_number` is modelled as an
exact rational, see the header. -/
structure MpChapter where
  id : String
  manga_id : String
  source_id : String
  chapter_number : ℚ
  title : String
  language : String
  pages : Nat
  is_read : Bool
deriving DecidableEq, Repr

/-- A chapter entity as serialized by `parse_chapters` of
`weebcentral.rs` (includes the `volume` field). -/
structure WcChapter where
  id : String
  manga_id : String
  source_id : String
  chapter_number : ℚ
  title : String
  language : String
  pages : Nat
  is_read : Bool
  volume : ℚ
deriving DecidableEq, Repr

/-- A page entity (`index`, `url`, placeholder dimensions). -/
structure Page where
  index : Nat
  url : String
  width : Nat
  height : Nat
deriving DecidableEq, Repr

/-- The manga-details entity.  MangaPill's JSON carries no `nsfw` key; its
model fixes `nsfw := false`. -/
structure MangaDetails where
  id : String
  title : String
  author : String
  description : String
  cover_url : String
  status : String
  nsfw : Bool
deriving DecidableEq, Repr

/-! ## Chapter extraction -/

/-- Model of Rust's stable `Vec::sort_by` with the comparator
`b_num.partial_cmp(&a_num).unwrap_or(Equal)` (descending by `key`): any
stable sort with respect to this total preorder produces the same output,
and `List.insertionSort` with `fun a b => key b ≤ key a` is such a stable
sort. -/
def sortChaptersDesc (key : α → ℚ) (l : List α) : List α :=
  List.insertionSort (fun a b => key b ≤ key a) l

/-- The pre-sort chapter list built by `parse_chapters` of `mangapill.rs`
(lines 206-240) from the capture groups of the chapter regex
`<a[^>]*href="(/chapters/[^"]*)"[^>]*>[^<]*Chapter\s*(\d+)\.?(\d*)`: each
element of `caps` is the triple of captured groups (link, whole part,
fractional part) of one match, in match order. -/
def mpRawChapters (mangaId : String) (caps : List (String × String × String)) :
    List MpChapter :=
  caps.filterMap fun cap =>
    let cid := cap.1
    let chapterStr := if cap.2.2 = "" then cap.2.1 else cap.2.1 ++ "." ++ cap.2.2
    if cid = "" then none
    else some
      { id := cid, manga_id := mangaId, source_id := "en.mangapill"
        chapter_number := (rustParseFloat chapterStr).getD 0
        title := "Chapter " ++ chapterStr
        language := "en", pages := 0, is_read := false }

/-- `parse_chapters` of `mangapill.rs`: parse, then sort descending by
chapter number. -/
def mpParseChapters (mangaId : String) (caps : List (String × String × String)) :
    List MpChapter :=
  sortChaptersDesc (·.chapter_number) (mpRawChapters mangaId caps)

/-- `BASE_URL` of `weebcentral.rs`. -/
def wcBaseUrl : String := "https://weebcentral.com"

/-- Chapter-number policy of `parse_chapters` in `weebcentral.rs` (lines
258-262): parse the substring after the title's last space as a float,
falling back to the item's positional index when the title has no space or
the parse fails. -/
def wcChapterNumber (title : String) (idx : Nat) : ℚ :=
  match afterLastSpace? title with
  | some tok => (rustParseFloat tok).getD idx
  | none => idx

/-- The pre-sort chapter list built by `parse_chapters` of
`weebcentral.rs` (lines 239-285) from the capture groups of its chapter
regex: each element of `caps` is the pair (chapter url, raw span text) of
one match, in match order; the positional index of `enumerate` counts all
matches, including those later skipped for an empty id.  The
`format!("Chapter {}", chapter_num)` fallback title renders the rational
with `toString` (Rust renders the `f64`).  `wcChapterItem` is the body of
one loop iteration. -/
def wcChapterItem (mangaId : String) (cap : Nat × (String × String)) :
    Option WcChapter :=
  let idx := cap.1
  let title := rustTrim cap.2.2
  let cid := dropPrefixOrEmpty wcBaseUrl cap.2.1
  let chapterNum := wcChapterNumber title idx
  let volume : ℚ := if strContains title "Volume" then chapterNum else -1
  if cid = "" then none
  else some
    { id := cid, manga_id := mangaId, source_id := "en.weebcentral"
      chapter_number := chapterNum
      title := if title = "" then "Chapter " ++ toString chapterNum else title
      language := "en", pages := 0, is_read := false, volume := volume }

def wcRawChapters (mangaId : String) (caps : List (String × String)) :
    List WcChapter :=
  caps.enum.filterMap (wcChapterItem mangaId)

/-- `parse_chapters` of `weebcentral.rs`: parse, then sort descending by
chapter number. -/
def wcParseChapters (mangaId : String) (caps : List (String × String)) :
    List WcChapter :=
  sortChaptersDesc (·.chapter_number) (wcRawChapters mangaId caps)

/-! ## Page extraction -/

/-- Worker for `parse_pages` of `mangapill.rs`: the mutable `index` counter
starts at 1 and is incremented after each pushed page; group 1 of the
pattern `data-src="([^"]*cdn[^"]*)"[^>]*>` participates in every match, so
every capture is pushed. -/
def mpParsePagesAux : Nat → List String → List Page
  | _, [] => []
  | index, url :: rest =>
    { index := index, url := url, width := 0, height := 0 } ::
      mpParsePagesAux (index + 1) rest

/-- `parse_pages` of `mangapill.rs` (lines 252-275), over the list of
captured `data-src` URLs in match order. -/
def mpParsePages (caps : List String) : List Page :=
  mpParsePagesAux 1 caps

/-- The image-URL filter of `parse_pages` in `weebcentral.rs` (line 308). -/
def wcIsImageUrl (url : String) : Bool :=
  strEndsWith url ".jpg" || strEndsWith url ".jpeg" ||
    strEndsWith url ".png" || strEndsWith url ".webp"

/-- Primary loop of `parse_pages` in `weebcentral.rs` (lines 304-317): the
page index is `idx + 1` where `idx` enumerates all img-regex captures,
including those rejected by the extension filter. -/
def wcPagesPrimary (caps : List String) : List Page :=
  caps.enum.filterMap fun cap =>
    if wcIsImageUrl cap.2 then
      some { index := cap.1 + 1, url := cap.2, width := 0, height := 0 }
    else none

/-- Fallback loop of `parse_pages` in `weebcentral.rs` (lines 320-335), run
only when the primary loop produced no pages; every capture is pushed. -/
def wcPagesFallback (caps : List String) : List Page :=
  caps.enum.map fun cap =>
    { index := cap.1 + 1, url := cap.2, width := 0, height := 0 }

/-- `parse_pages` of `weebcentral.rs` (lines 297-337), over the captures of
the img regex and of the fallback scroll regex. -/
def wcParsePages (primaryCaps scrollCaps : List String) : List Page :=
  let pages := wcPagesPrimary primaryCaps
  if pages.isEmpty then wcPagesFallback scrollCaps else pages

/-! ## Manga details extraction -/

/-- `parse_manga_details` of `mangapill.rs` (lines 151-204), over the
optional capture of each field regex (`none` when the pattern does not
match the markup); the status probe `html.contains("Completed")` is
modelled on the markup itself. -/
def mpParseMangaDetails (mangaId html : String)
    (titleCap descCap authorCap coverCap : Option String) : MangaDetails :=
  { id := mangaId
    title := (titleCap.map decodeHtmlEntitiesMP).getD "Unknown"
    description := (descCap.map cleanHtml).getD ""
    author := (authorCap.map rustTrim).getD ""
    cover_url := coverCap.getD ""
    status := if strContains html "Completed" then "completed" else "ongoing"
    nsfw := false }

/-- `parse_manga_details` of `weebcentral.rs` (lines 174-237), over the
optional capture of each field regex; the status and nsfw probes are
substring tests on the markup. -/
def wcParseMangaDetails (mangaId html : String)
    (titleCap coverCap descCap authorCap : Option String) : MangaDetails :=
  { id := mangaId
    title := (titleCap.map (fun s => decodeHtmlEntitiesWC (rustTrim s))).getD "Unknown"
    cover_url := coverCap.getD ""
    description := (descCap.map (fun s => decodeHtmlEntitiesWC (rustTrim s))).getD ""
    author := (authorCap.map (fun s => decodeHtmlEntitiesWC (rustTrim s))).getD ""
    status :=
      if strContains html "Complete" then "completed"
      else if strContains html "Ongoing" then "ongoing"
      else if strContains html "Hiatus" then "hiatus"
      else if strContains html "Canceled" then "canceled"
      else "unknown"
    nsfw := strContains html "Adult" || strContains html "Hentai" ||
      strContains html "Mature" }

/-! ## Acquisition pipeline -/

/-- A successful filesystem effect, in the order it happened. -/
inductive FsEvent where
  | mkdirAll (path : String)
  | fileWritten (path : String) (data : List Nat)
  | fileCreated (path : String)
  | infoWritten (path : String) (images downloaded : Nat) (firstPage : String)
  | removeDirAll (path : String)
deriving DecidableEq, Repr

/-- Whether a position's download succeeded end to end: the network fetch
(`client.get(url).send()`, status check and `response.bytes()` folded into
one oracle) returned bytes and `tokio::fs::write` succeeded. -/
def posSuccess (net : Nat → Option (List Nat)) (writeOk : Nat → Bool) (i : Nat) : Bool :=
  (net i).isSome && writeOk i

/-- The per-page target filename of `downloader.rs` (lines 28-32) and
`cbz.rs` (lines 31-35): `format!("{:03}.{}", i + 1, ext)` with the
extension taken from the URL path, defaulting to `jpg`. -/
def pageFileName (i : Nat) (url : String) : String :=
  pad3 (i + 1) ++ "." ++ ((pathExtension url).getD "jpg")

/-- Environment oracles for `download_chapter_pages`: directory creation,
HTTP client construction, the per-position network result (`none` for a
transport failure, a non-success status or a body-read failure) and
per-position file-write success. -/
structure DlEnv where
  mkdirOk : Bool
  clientOk : Bool
  net : Nat → Option (List Nat)
  writeOk : Nat → Bool

/-- One iteration of the download loop of `download_chapter_pages`: a file
is written exactly when the fetch and the write both succeed; failures are
logged and skipped. -/
def dlStep (outputDir : String) (env : DlEnv) (i : Nat) (url : String) : List FsEvent :=
  match env.net i with
  | some bytes =>
    if env.writeOk i then
      [.fileWritten (outputDir ++ "/" ++ pageFileName i url) bytes]
    else []
  | none => []

/-- Result of `download_chapter_pages`: the filesystem trace, the final
`downloaded_count`, and the returned `Result`. -/
structure DlOut where
  events : List FsEvent
  count : Nat
  result : Except String String
deriving Repr

/-- Model of `download_chapter_pages` (`downloader.rs` lines 6-62): reject
an empty URL list, create the output directory, build the client, attempt
every position independently, and fail if nothing was downloaded.
`downloaded_count` increments exactly on the positions whose fetch and
write succeed. -/
def download_chapter_pages (outputDir : String) (imageUrls : List String)
    (env : DlEnv) : DlOut :=
  if imageUrls.isEmpty then ⟨[], 0, .error "No images to download"⟩
  else if !env.mkdirOk then ⟨[], 0, .error "Failed to create output dir"⟩
  else if !env.clientOk then
    ⟨[.mkdirAll outputDir], 0, .error "Failed to create HTTP client"⟩
  else
    let events := FsEvent.mkdirAll outputDir ::
      (imageUrls.enum.map fun p => dlStep outputDir env p.1 p.2).flatten
    let count := imageUrls.enum.countP fun p => posSuccess env.net env.writeOk p.1
    if count = 0 then ⟨events, 0, .error "Failed to download any images"⟩
    else ⟨events, count, .ok outputDir⟩

/-- Environment oracles for `create_cbz`; the first four are as in `DlEnv`,
the rest model the packaging stage (`create_dir_all` on the parent of the
output path, `File::create`, per-entry `zip.start_file`, `std::fs::read`,
`zip.write_all`, and `zip.finish`). -/
structure CbzEnv where
  mkdirTempOk : Bool
  clientOk : Bool
  net : Nat → Option (List Nat)
  writeOk : Nat → Bool
  mkdirParentOk : Bool
  createFileOk : Bool
  zipStartOk : Nat → Bool
  readFile : String → Option (List Nat)
  zipWriteOk : Nat → Bool
  zipFinishOk : Bool

/-- One entry of the produced ZIP archive: name, payload, compression
method (`0` = `CompressionMethod::Stored`) and Unix permission bits. -/
structure ZipEntry where
  name : String
  data : List Nat
  method : Nat
  unixPerms : Nat
deriving DecidableEq, Repr

/-- The entry-writing loop of the `spawn_blocking` closure in `create_cbz`
(`cbz.rs` lines 82-89): for each `(name, path)` of `downloaded_files`,
start a Stored entry with permissions `0o644`, read the staged file and
write its bytes; the first failing operation aborts the whole closure with
an error. -/
def zipWriteEntries (env : CbzEnv) : Nat → List (String × String) →
    Except String (List ZipEntry)
  | _, [] => .ok []
  | i, (name, path) :: rest =>
    if !env.zipStartOk i then .error "Failed to start file in zip"
    else
      match env.readFile path with
      | none => .error "Failed to read image file"
      | some data =>
        if !env.zipWriteOk i then .error "Failed to write to zip"
        else (zipWriteEntries env (i + 1) rest).map
          (fun es => ⟨name, data, 0, 0o644⟩ :: es)

/-- Model of the whole `spawn_blocking` closure of `create_cbz` (`cbz.rs`
lines 73-95): `File::create`, the entry loop, then `zip.finish`.  Returns
the archive's entry list on success. -/
def cbzWriteArchive (env : CbzEnv) (files : List (String × String)) :
    Except String (List ZipEntry) :=
  if !env.createFileOk then .error "Failed to create CBZ file"
  else
    match zipWriteEntries env 0 files with
    | .error e => .error e
    | .ok entries =>
      if env.zipFinishOk then .ok entries else .error "Failed to finish zip"

/-- The download loop of `create_cbz` (`cbz.rs` lines 30-58) over the
enumerated URL list: returns the write events into the temp directory and
the accumulated `downloaded_files` list of `(filename, filepath)` pairs. -/
def cbzDownloads (tempDir : String) (net : Nat → Option (List Nat))
    (writeOk : Nat → Bool) : List (Nat × String) → List FsEvent × List (String × String)
  | [] => ([], [])
  | (i, url) :: rest =>
    let tail := cbzDownloads tempDir net writeOk rest
    let filename := pageFileName i url
    let filepath := tempDir ++ "/" ++ filename
    match net i with
    | some bytes =>
      if writeOk i then
        (.fileWritten filepath bytes :: tail.1, (filename, filepath) :: tail.2)
      else tail
    | none => tail

/-- Result of `create_cbz`: trace, archive contents when the ZIP was fully
written, and the returned `Result`. -/
structure CbzOut where
  events : List FsEvent
  archive : Option (List ZipEntry)
  result : Except String String
deriving Repr

/-- Model of `Path::new(p).parent()` for the output path (result only feeds
an ignored `create_dir_all`): everything before the last `/`, `none` for
the empty or root path. -/
def parentDir? (p : String) : Option String :=
  if p = "" ∨ p = "/" then none
  else
    match (p.splitOn "/").dropLast with
    | [] => some ""
    | parts => some (String.intercalate "/" parts)

/-- The (ignored-result) `create_dir_all` on the output path's parent in
`create_cbz` (`cbz.rs` lines 66-69). -/
def cbzParentEvents (outputPath : String) (env : CbzEnv) : List FsEvent :=
  match parentDir? outputPath with
  | some d => if env.mkdirParentOk then [FsEvent.mkdirAll d] else []
  | none => []

/-- The `File::create` effect of the packaging stage. -/
def cbzCreateEvents (outputPath : String) (env : CbzEnv) : List FsEvent :=
  if env.createFileOk then [FsEvent.fileCreated outputPath] else []

/-- Model of `create_cbz` (`cbz.rs` lines 8-105): reject an empty list,
create a staging temp directory, build the client (a failure here returns
through `?` without touching the temp directory), download every position
independently, fail after removing the temp directory when nothing was
downloaded, otherwise package and then remove the temp directory whatever
the packaging outcome.  `tempDir` stands for
`env::temp_dir().join(format!("cbz_{}", process::id()))`; a
`spawn_blocking` join error (task panic) is not modelled. -/
def create_cbz (outputPath tempDir : String) (imageUrls : List String)
    (env : CbzEnv) : CbzOut :=
  if imageUrls.isEmpty then ⟨[], none, .error "No images to download"⟩
  else if !env.mkdirTempOk then ⟨[], none, .error "Failed to create temp dir"⟩
  else if !env.clientOk then
    ⟨[.mkdirAll tempDir], none, .error "Failed to create HTTP client"⟩
  else
    let dl := cbzDownloads tempDir env.net env.writeOk imageUrls.enum
    if dl.2.isEmpty then
      ⟨.mkdirAll tempDir :: dl.1 ++ [.removeDirAll tempDir], none,
        .error "Failed to download any images"⟩
    else
      let events := FsEvent.mkdirAll tempDir ::
        dl.1 ++ cbzParentEvents outputPath env ++ cbzCreateEvents outputPath env
          ++ [FsEvent.removeDirAll tempDir]
      match cbzWriteArchive env dl.2 with
      | .ok entries => ⟨events, some entries, .ok outputPath⟩
      | .error e => ⟨events, none, .error e⟩

/-- Environment oracles for `rakuyomi_create_cbz_inner` (the `block_on`
body): directory creation, client construction, per-position network and
write results, and the ignored-result write of `chapter.json`. -/
structure InnerEnv where
  mkdirOk : Bool
  clientOk : Bool
  net : Nat → Option (List Nat)
  writeOk : Nat → Bool
  infoWriteOk : Bool

/-- The final JSON envelope of `rakuyomi_create_cbz_inner`, or one of its
early error envelopes. -/
inductive InnerOut where
  | errorOut (msg : String)
  | doneOut (success : Bool) (path folder : String) (images : Nat)
deriving DecidableEq, Repr

/-- The per-page filename of `rakuyomi_create_cbz_inner` (`lib.rs` line
1194): `format!("{:03}.jpg", i + 1)` — always `jpg`, the URL is not
consulted. -/
def innerFileName (i : Nat) : String := pad3 (i + 1) ++ ".jpg"

/-- One iteration of the download loop of `rakuyomi_create_cbz_inner`. -/
def innerStep (outputDir : String) (env : InnerEnv) (i : Nat) : List FsEvent :=
  match env.net i with
  | some bytes =>
    if env.writeOk i then
      [.fileWritten (outputDir ++ "/" ++ innerFileName i) bytes]
    else []
  | none => []

/-- Model of the `block_on` body of `rakuyomi_create_cbz_inner` (`lib.rs`
lines 1172-1229): create the destination, build the client, attempt every
position, then write a `chapter.json` summary into the destination (result
ignored) and report `success: downloaded > 0`.  There is no empty-list
check and the summary is written even when every download failed. -/
def rakuyomi_create_cbz_inner (outputDir : String) (urls : List String)
    (env : InnerEnv) : List FsEvent × InnerOut :=
  if !env.mkdirOk then ([], .errorOut "Failed to create directory")
  else if !env.clientOk then
    ([.mkdirAll outputDir], .errorOut "Failed to create HTTP client")
  else
    let steps := (urls.enum.map fun p => innerStep outputDir env p.1).flatten
    let downloaded := urls.enum.countP fun p => posSuccess env.net env.writeOk p.1
    let infoEvents :=
      if env.infoWriteOk then
        [FsEvent.infoWritten (outputDir ++ "/chapter.json") urls.length downloaded
          (outputDir ++ "/001.jpg")]
      else []
    (FsEvent.mkdirAll outputDir :: steps ++ infoEvents,
      .doneOut (downloaded > 0) (outputDir ++ "/001.jpg") outputDir downloaded)

/-! ## General lemmas about the model's building blocks -/

theorem sortChaptersDesc_sorted (key : α → ℚ) (l : List α) :
    List.Chain' (fun a b => key b ≤ key a) (sortChaptersDesc key l) := by
  haveI : IsTotal α (fun a b => key b ≤ key a) := ⟨fun a b => le_total (key b) (key a)⟩
  haveI : IsTrans α (fun a b => key b ≤ key a) :=
    ⟨fun _ _ _ hab hbc => le_trans hbc hab⟩
  exact (List.sorted_insertionSort _ l).chain'

theorem filter_orderedInsert (key : α → ℚ) (q : ℚ) (x : α) :
    ∀ l : List α,
      (List.orderedInsert (fun a b => key b ≤ key a) x l).filter
          (fun c => decide (key c = q))
        = if key x = q then x :: l.filter (fun c => decide (key c = q))
          else l.filter (fun c => decide (key c = q))
  | [] => by
    by_cases hx : key x = q <;> simp [hx, List.orderedInsert]
  | y :: ys => by
    simp only [List.orderedInsert]
    by_cases hr : key y ≤ key x
    · rw [if_pos hr]
      by_cases hx : key x = q <;> simp [List.filter_cons, hx]
    · rw [if_neg hr]
      have hlt : key x < key y := lt_of_not_le hr
      have ih := filter_orderedInsert key q x ys
      by_cases hx : key x = q
      · have hy : ¬ key y = q := fun hy => absurd (hx ▸ hy ▸ hlt) (lt_irrefl _)
        simp [List.filter_cons, hy, hx, ih]
      · by_cases hy : key y = q <;> simp [List.filter_cons, hy, hx, ih]

theorem filter_sortChaptersDesc (key : α → ℚ) (q : ℚ) :
    ∀ l : List α,
      (sortChaptersDesc key l).filter (fun c => decide (key c = q))
        = l.filter (fun c => decide (key c = q))
  | [] => rfl
  | x :: xs => by
    have ih := filter_sortChaptersDesc key q xs
    simp only [sortChaptersDesc, List.insertionSort] at ih ⊢
    rw [filter_orderedInsert]
    by_cases hx : key x = q <;> simp [hx, ih]

theorem filterMap_ite_none {β γ : Type _} (pr : β → Prop) [DecidablePred pr]
    (F : β → γ) :
    ∀ l : List β,
      (l.filterMap fun b => if pr b then none else some (F b))
        = (l.filter fun b => ¬ pr b).map F
  | [] => rfl
  | b :: l => by
    by_cases h : pr b <;>
      simp [h, filterMap_ite_none pr F l]

theorem countP_add_countP_not (p : β → Bool) :
    ∀ l : List β, l.countP p + l.countP (fun b => !p b) = l.length
  | [] => rfl
  | b :: l => by
    have ih := countP_add_countP_not p l
    cases hb : p b <;> simp [List.countP_cons, hb] <;> omega

theorem mem_enum_fst_lt {l : List β} {p : Nat × β} (h : p ∈ l.enum) :
    p.1 < l.length := by
  have := List.mem_enumFrom (x := p.2) (i := p.1) (j := 0) (by simpa using h)
  simpa using this.2.1

theorem flatten_dlSteps (d : String) (env : DlEnv) :
    ∀ pairs : List (Nat × String),
      (pairs.map fun p => dlStep d env p.1 p.2).flatten
        = (pairs.filter fun p => posSuccess env.net env.writeOk p.1).map
            (fun p => FsEvent.fileWritten (d ++ "/" ++ pageFileName p.1 p.2)
              ((env.net p.1).getD []))
  | [] => rfl
  | (i, u) :: pairs => by
    have ih := flatten_dlSteps d env pairs
    simp only [List.map_cons, List.flatten_cons, List.filter_cons, ih]
    cases h : env.net i with
    | none => simp [dlStep, posSuccess, h]
    | some b =>
      cases hw : env.writeOk i <;> simp [dlStep, posSuccess, h, hw]

theorem cbzDownloads_eq (tmp : String) (net : Nat → Option (List Nat))
    (wOk : Nat → Bool) :
    ∀ pairs : List (Nat × String),
      cbzDownloads tmp net wOk pairs
        = ((pairs.filter fun p => posSuccess net wOk p.1).map
             (fun p => FsEvent.fileWritten (tmp ++ "/" ++ pageFileName p.1 p.2)
               ((net p.1).getD [])),
           (pairs.filter fun p => posSuccess net wOk p.1).map
             (fun p => (pageFileName p.1 p.2, tmp ++ "/" ++ pageFileName p.1 p.2)))
  | [] => rfl
  | (i, u) :: pairs => by
    have ih := cbzDownloads_eq tmp net wOk pairs
    simp only [cbzDownloads, ih, List.filter_cons]
    cases h : net i with
    | none => simp [posSuccess, h]
    | some b =>
      cases hw : wOk i <;> simp [posSuccess, h, hw]

theorem flatten_innerSteps (d : String) (env : InnerEnv) :
    ∀ pairs : List (Nat × String),
      (pairs.map fun p => innerStep d env p.1).flatten
        = (pairs.filter fun p => posSuccess env.net env.writeOk p.1).map
            (fun p => FsEvent.fileWritten (d ++ "/" ++ innerFileName p.1)
              ((env.net p.1).getD []))
  | [] => rfl
  | (i, u) :: pairs => by
    have ih := flatten_innerSteps d env pairs
    simp only [List.map_cons, List.flatten_cons, List.filter_cons, ih]
    cases h : env.net i with
    | none => simp [innerStep, posSuccess, h]
    | some b =>
      cases hw : env.writeOk i <;> simp [innerStep, posSuccess, h, hw]

/-! ## Page-index lemmas -/

theorem mpParsePagesAux_map_index :
    ∀ (n : Nat) (caps : List String),
      (mpParsePagesAux n caps).map (·.index) = List.range' n caps.length
  | _, [] => rfl
  | n, u :: caps => by
    simp [mpParsePagesAux, List.range'_succ, mpParsePagesAux_map_index (n + 1) caps]

/-- `wcPagesPrimary` with the enumeration started at `n` (generalization
for induction). -/
def wcPrimaryFrom (n : Nat) (caps : List String) : List Page :=
  (caps.enumFrom n).filterMap fun cap =>
    if wcIsImageUrl cap.2 then
      some { index := cap.1 + 1, url := cap.2, width := 0, height := 0 }
    else none

theorem wcPagesPrimary_eq_from (caps : List String) :
    wcPagesPrimary caps = wcPrimaryFrom 0 caps := rfl

theorem wcPrimaryFrom_bounds :
    ∀ (n : Nat) (caps : List String),
      (∀ p ∈ wcPrimaryFrom n caps, n + 1 ≤ p.index) ∧
        List.Chain' (fun a b => a.index < b.index) (wcPrimaryFrom n caps)
  | _, [] => by simp [wcPrimaryFrom]
  | n, u :: caps => by
    have ih := wcPrimaryFrom_bounds (n + 1) caps
    by_cases h : wcIsImageUrl u = true
    · have hrw : wcPrimaryFrom n (u :: caps)
          = ({ index := n + 1, url := u, width := 0, height := 0 } : Page)
            :: wcPrimaryFrom (n + 1) caps := by
        simp [wcPrimaryFrom, List.enumFrom_cons, List.filterMap_cons, h]
      rw [hrw]
      constructor
      · intro p hp
        rcases List.mem_cons.mp hp with hp | hp
        · subst hp; exact le_refl _
        · exact le_trans (Nat.le_succ _) (ih.1 p hp)
      · rw [List.chain'_cons']
        refine ⟨fun y hy => ?_, ih.2⟩
        have := ih.1 y (List.mem_of_mem_head? hy)
        exact this
    · have hrw : wcPrimaryFrom n (u :: caps) = wcPrimaryFrom (n + 1) caps := by
        simp [wcPrimaryFrom, List.enumFrom_cons, List.filterMap_cons, h]
      rw [hrw]
      exact ⟨fun p hp => le_trans (Nat.le_succ _) (ih.1 p hp), ih.2⟩

theorem wcFallbackFrom_bounds :
    ∀ (n : Nat) (caps : List String),
      ((caps.enumFrom n).map
          (fun c => ({ index := c.1 + 1, url := c.2, width := 0, height := 0 } : Page))).map
          (·.index) = List.range' (n + 1) caps.length ∧
        (∀ p ∈ (caps.enumFrom n).map
            (fun c => ({ index := c.1 + 1, url := c.2, width := 0, height := 0 } : Page)),
          n + 1 ≤ p.index) ∧
        List.Chain' (fun a b => a.index < b.index)
          ((caps.enumFrom n).map
            (fun c => ({ index := c.1 + 1, url := c.2, width := 0, height := 0 } : Page)))
  | _, [] => by simp
  | n, u :: caps => by
    have ih := wcFallbackFrom_bounds (n + 1) caps
    simp only [List.enumFrom_cons, List.map_cons]
    refine ⟨?_, ?_, ?_⟩
    · simp [List.range'_succ, ih.1]
    · intro p hp
      rcases List.mem_cons.mp hp with hp | hp
      · subst hp; exact le_refl _
      · exact le_trans (Nat.le_succ _) (ih.2.1 p hp)
    · rw [List.chain'_cons']
      refine ⟨fun y hy => ?_, ih.2.2⟩
      have := ih.2.1 y (List.mem_of_mem_head? hy)
      exact this

theorem wcPagesFallback_eq_from (caps : List String) :
    wcPagesFallback caps
      = (caps.enumFrom 0).map
          (fun c => ({ index := c.1 + 1, url := c.2, width := 0, height := 0 } : Page)) := rfl

/-! ## Claim theorems -/

/-- C10: for the empty URL list, `download_chapter_pages` and `create_cbz`
return an error immediately: no directory is created, no network request
is made and no file is written (the effect trace is empty). -/
theorem empty_url_list_rejected (dir outPath tmp : String) (denv : DlEnv)
    (cenv : CbzEnv) :
    download_chapter_pages dir [] denv
        = ⟨[], 0, .error "No images to download"⟩ ∧
      create_cbz outPath tmp [] cenv = ⟨[], none, .error "No images to download"⟩ :=
  ⟨rfl, rfl⟩

/-- C5: both `get_chapter_list` extractors return chapter lists in which
every adjacent pair is descending in `chapter_number` (`Chain'` of `≥`),
and elements of equal `chapter_number` keep their parse-stream order (the
sorted list filtered to any fixed chapter number equals the pre-sort parse
list so filtered). -/
theorem chapter_lists_sorted_and_stable (mid : String)
    (capsM : List (String × String × String)) (capsW : List (String × String))
    (q : ℚ) :
    List.Chain' (fun a b => b.chapter_number ≤ a.chapter_number)
        (mpParseChapters mid capsM) ∧
      (mpParseChapters mid capsM).filter (fun c => decide (c.chapter_number = q))
        = (mpRawChapters mid capsM).filter (fun c => decide (c.chapter_number = q)) ∧
      List.Chain' (fun a b => b.chapter_number ≤ a.chapter_number)
        (wcParseChapters mid capsW) ∧
      (wcParseChapters mid capsW).filter (fun c => decide (c.chapter_number = q))
        = (wcRawChapters mid capsW).filter (fun c => decide (c.chapter_number = q)) :=
  ⟨sortChaptersDesc_sorted _ _, filter_sortChaptersDesc _ q _,
    sortChaptersDesc_sorted _ _, filter_sortChaptersDesc _ q _⟩

/-- C9 (counterexample): on markup with no matching title pattern and no
status marker (the empty markup), MangaPill's `parse_manga_details` yields
title `"Unknown"` but status `"ongoing"`, not the `"unknown"` the claim
asserts. -/
theorem mp_status_fallback_counterexample :
    (mpParseMangaDetails "m" "" none none none none).title = "Unknown" ∧
      (mpParseMangaDetails "m" "" none none none none).status = "ongoing" ∧
      ("ongoing" : String) ≠ "unknown" :=
  ⟨rfl, rfl, by decide⟩

/-- C9 (amended): with no matching title/description/author/cover pattern,
both `parse_manga_details` implementations return without error the title
`"Unknown"` and empty author, description and cover; with no status marker
in the markup the status falls back to `"unknown"` for WeebCentral but to
`"ongoing"` for MangaPill (which probes only for `"Completed"`). -/
theorem manga_details_fallback (mid html : String)
    (hmp : strContains html "Completed" = false)
    (h1 : strContains html "Complete" = false)
    (h2 : strContains html "Ongoing" = false)
    (h3 : strContains html "Hiatus" = false)
    (h4 : strContains html "Canceled" = false) :
    mpParseMangaDetails mid html none none none none
        = ⟨mid, "Unknown", "", "", "", "ongoing", false⟩ ∧
      wcParseMangaDetails mid html none none none none
        = ⟨mid, "Unknown", "", "", "", "unknown",
            strContains html "Adult" || strContains html "Hentai" ||
              strContains html "Mature"⟩ := by
  constructor
  · simp [mpParseMangaDetails, hmp]
  · simp [wcParseMangaDetails, h1, h2, h3, h4]

/-- Witness for the amended C9 theorem at the empty markup. -/
theorem manga_details_fallback_witness :
    mpParseMangaDetails "m" "" none none none none
        = ⟨"m", "Unknown", "", "", "", "ongoing", false⟩ ∧
      wcParseMangaDetails "m" "" none none none none
        = ⟨"m", "Unknown", "", "", "", "unknown", false⟩ := by
  have h := manga_details_fallback "m" "" (by decide) (by decide) (by decide)
    (by decide) (by decide)
  exact ⟨h.1, h.2.trans (by decide)⟩

/-- C6 (counterexample): WeebCentral's `parse_pages`, fed img captures
`["x.gif", "a.jpg"]`, returns a single page whose index is 2, not 1 — the
index list is not contiguous 1-based, because the enumeration counts the
filtered-out non-image capture. -/
theorem wc_page_index_gap :
    wcParsePages ["x.gif", "a.jpg"] []
        = [{ index := 2, url := "a.jpg", width := 0, height := 0 }] ∧
      (2 : Nat) ≠ 1 :=
  ⟨rfl, by decide⟩

/-- C6 (amended): page indices of a single extraction are 1-based and
strictly increasing in every case; they are contiguous (the k-th page has
index k) for MangaPill and for WeebCentral's fallback loop, while
WeebCentral's primary loop records the page's 1-based position among all
matched img tags, so captures rejected by the image-extension filter leave
gaps. -/
theorem page_index_policy (capsM capsP capsS : List String) :
    (mpParsePages capsM).map (·.index) = List.range' 1 capsM.length ∧
      List.Chain' (fun a b => a.index < b.index) (wcParsePages capsP capsS) ∧
      (wcParsePages capsP capsS).all (fun p => decide (1 ≤ p.index)) = true ∧
      (wcPagesFallback capsS).map (·.index) = List.range' 1 capsS.length := by
  refine ⟨mpParsePagesAux_map_index 1 capsM, ?_, ?_, ?_⟩
  · unfold wcParsePages
    by_cases h : (wcPagesPrimary capsP).isEmpty
    · simp only [h, if_true]
      rw [wcPagesFallback_eq_from]
      exact (wcFallbackFrom_bounds 0 capsS).2.2
    · simp only [h, if_false]
      rw [wcPagesPrimary_eq_from]
      exact (wcPrimaryFrom_bounds 0 capsP).2
  · rw [List.all_eq_true]
    intro p hp
    unfold wcParsePages at hp
    by_cases h : (wcPagesPrimary capsP).isEmpty
    · simp only [h, if_true] at hp
      rw [wcPagesFallback_eq_from] at hp
      simpa using (wcFallbackFrom_bounds 0 capsS).2.1 p hp
    · simp only [h, if_false] at hp
      rw [wcPagesPrimary_eq_from] at hp
      simpa using (wcPrimaryFrom_bounds 0 capsP).1 p hp
  · rw [wcPagesFallback_eq_from]
    exact (wcFallbackFrom_bounds 0 capsS).1

/-! ## File-creation views of a trace -/

/-- The created files `(path, payload)` recorded in an effect trace. -/
def writtenFiles (events : List FsEvent) : List (String × List Nat) :=
  events.filterMap fun e =>
    match e with
    | .fileWritten p d => some (p, d)
    | _ => none

/-- Whether an effect creates a file of any kind. -/
def createsFile : FsEvent → Bool
  | .fileWritten _ _ => true
  | .fileCreated _ => true
  | .infoWritten _ _ _ _ => true
  | _ => false

theorem writtenFiles_dlSteps (d : String) (env : DlEnv) :
    ∀ pairs : List (Nat × String),
      writtenFiles ((pairs.map fun p => dlStep d env p.1 p.2).flatten)
        = (pairs.filter fun p => posSuccess env.net env.writeOk p.1).map
            (fun p => (d ++ "/" ++ pageFileName p.1 p.2, (env.net p.1).getD []))
  | [] => rfl
  | (i, u) :: pairs => by
    have ih := writtenFiles_dlSteps d env pairs
    simp only [List.map_cons, List.flatten_cons, List.filter_cons]
    cases h : env.net i with
    | none =>
      have hs : posSuccess env.net env.writeOk i = false := by
        simp [posSuccess, h]
      rw [show dlStep d env i u = [] from by simp [dlStep, h], List.nil_append, hs]
      exact ih
    | some b =>
      cases hw : env.writeOk i with
      | false =>
        have hs : posSuccess env.net env.writeOk i = false := by
          simp [posSuccess, h, hw]
        rw [show dlStep d env i u = [] from by simp [dlStep, h, hw],
          List.nil_append, hs]
        exact ih
      | true =>
        have hs : posSuccess env.net env.writeOk i = true := by
          simp [posSuccess, h, hw]
        rw [show dlStep d env i u
            = [FsEvent.fileWritten (d ++ "/" ++ pageFileName i u) b] from by
          simp [dlStep, h, hw], hs]
        simp only [List.cons_append, List.nil_append, if_true, List.map_cons, h,
          Option.getD_some]
        exact congrArg (List.cons _) ih

/-- C1: for `download_chapter_pages` with mkdir and client construction
succeeding, the files created in the destination are exactly those of the
succeeding positions — named `{i+1:03}.{ext}` at their original position
`i`, failed positions leaving no file and aborting nothing — and the
succeeded count equals `N` minus the number of failed positions. -/
theorem download_chapter_pages_positional (dir : String) (urls : List String)
    (env : DlEnv) (hm : env.mkdirOk = true) (hc : env.clientOk = true) :
    writtenFiles (download_chapter_pages dir urls env).events
        = (urls.enum.filter fun p => posSuccess env.net env.writeOk p.1).map
            (fun p => (dir ++ "/" ++ pageFileName p.1 p.2, (env.net p.1).getD []))
      ∧ (download_chapter_pages dir urls env).count
          = urls.length
            - (urls.enum.filter fun p => !(posSuccess env.net env.writeOk p.1)).length := by
  rcases urls with _ | ⟨u, us⟩
  · exact ⟨rfl, rfl⟩
  constructor
  · have hev : (download_chapter_pages dir (u :: us) env).events
        = FsEvent.mkdirAll dir
          :: ((u :: us).enum.map fun p => dlStep dir env p.1 p.2).flatten := by
      by_cases h0 : ((u :: us).enum.countP fun p =>
          posSuccess env.net env.writeOk p.1) = 0 <;>
        simp [download_chapter_pages, hm, hc, h0]
    rw [hev]
    exact writtenFiles_dlSteps dir env ((u :: us).enum)
  · have hcnt : (download_chapter_pages dir (u :: us) env).count
        = (u :: us).enum.countP fun p => posSuccess env.net env.writeOk p.1 := by
      by_cases h0 : ((u :: us).enum.countP fun p =>
          posSuccess env.net env.writeOk p.1) = 0 <;>
        simp [download_chapter_pages, hm, hc, h0]
    rw [hcnt]
    have hsum := countP_add_countP_not
      (fun p => posSuccess env.net env.writeOk p.1) (u :: us).enum
    have h1 : ((u :: us).enum.filter fun p =>
          !(posSuccess env.net env.writeOk p.1)).length
        = (u :: us).enum.countP fun p => !(posSuccess env.net env.writeOk p.1) :=
      (List.countP_eq_length_filter _ _).symm
    have h2 : (u :: us).enum.length = (u :: us).length := List.enum_length
    omega

/-- Witness for C1: two URLs, position 1 failing — exactly `001.png` is
created and the count is `2 - 1`. -/
theorem download_chapter_pages_positional_witness :
    writtenFiles (download_chapter_pages "d" ["a.png", "b"]
          ⟨true, true, fun i => if i = 0 then some [7] else none,
            fun _ => true⟩).events
        = [("d/001.png", [7])]
      ∧ (download_chapter_pages "d" ["a.png", "b"]
          ⟨true, true, fun i => if i = 0 then some [7] else none,
            fun _ => true⟩).count = 1 := by
  have h := download_chapter_pages_positional "d" ["a.png", "b"]
    ⟨true, true, fun i => if i = 0 then some [7] else none, fun _ => true⟩
    rfl rfl
  exact ⟨h.1.trans (by decide), h.2.trans (by decide)⟩

/-! ## Trace-shape lemmas for the three acquisition entry points -/

theorem dl_events_eq (dir u : String) (us : List String) (env : DlEnv)
    (hm : env.mkdirOk = true) (hc : env.clientOk = true) :
    (download_chapter_pages dir (u :: us) env).events
      = FsEvent.mkdirAll dir
        :: ((u :: us).enum.map fun p => dlStep dir env p.1 p.2).flatten := by
  by_cases h0 : ((u :: us).enum.countP fun p =>
      posSuccess env.net env.writeOk p.1) = 0 <;>
    simp [download_chapter_pages, hm, hc, h0]

theorem inner_events_eq (dir : String) (urls : List String) (env : InnerEnv)
    (hm : env.mkdirOk = true) (hc : env.clientOk = true) :
    (rakuyomi_create_cbz_inner dir urls env).1
      = FsEvent.mkdirAll dir
        :: ((urls.enum.map fun p => innerStep dir env p.1).flatten
          ++ (if env.infoWriteOk then
              [FsEvent.infoWritten (dir ++ "/chapter.json") urls.length
                (urls.enum.countP fun p => posSuccess env.net env.writeOk p.1)
                (dir ++ "/001.jpg")]
            else [])) := by
  simp [rakuyomi_create_cbz_inner, hm, hc]

theorem cbz_events_empty_dl (outPath tmp u : String) (us : List String)
    (env : CbzEnv) (hmk : env.mkdirTempOk = true) (hcl : env.clientOk = true)
    (hdl : (cbzDownloads tmp env.net env.writeOk (u :: us).enum).2.isEmpty = true) :
    (create_cbz outPath tmp (u :: us) env).events
        = FsEvent.mkdirAll tmp
          :: (cbzDownloads tmp env.net env.writeOk (u :: us).enum).1
            ++ [FsEvent.removeDirAll tmp]
      ∧ (create_cbz outPath tmp (u :: us) env).result
          = .error "Failed to download any images" := by
  constructor <;> simp [create_cbz, hmk, hcl, hdl]

theorem cbz_events_nonempty_dl (outPath tmp u : String) (us : List String)
    (env : CbzEnv) (hmk : env.mkdirTempOk = true) (hcl : env.clientOk = true)
    (hdl : (cbzDownloads tmp env.net env.writeOk (u :: us).enum).2.isEmpty = false) :
    (create_cbz outPath tmp (u :: us) env).events
      = FsEvent.mkdirAll tmp
        :: (cbzDownloads tmp env.net env.writeOk (u :: us).enum).1
          ++ cbzParentEvents outPath env ++ cbzCreateEvents outPath env
          ++ [FsEvent.removeDirAll tmp] := by
  simp only [create_cbz, List.isEmpty_cons, Bool.false_eq_true, if_false, hmk,
    hcl, Bool.not_true, hdl, ite_false]
  split <;> rfl

/-- C3 (counterexample): when HTTP client construction fails after the
temp directory has been created (the `?` on `Client::builder().build()` in
`cbz.rs` line 26), `create_cbz` returns an error without removing the temp
directory — the trace holds its creation and no removal. -/
theorem create_cbz_client_failure_leaks_tempdir :
    (create_cbz "out.cbz" "tmp/cbz1" ["u"]
          ⟨true, false, fun _ => some [0], fun _ => true, true, true,
            fun _ => true, fun _ => some [0], fun _ => true, true⟩).events
        = [FsEvent.mkdirAll "tmp/cbz1"]
      ∧ FsEvent.removeDirAll "tmp/cbz1"
          ∉ (create_cbz "out.cbz" "tmp/cbz1" ["u"]
              ⟨true, false, fun _ => some [0], fun _ => true, true, true,
                fun _ => true, fun _ => some [0], fun _ => true, true⟩).events
      ∧ (create_cbz "out.cbz" "tmp/cbz1" ["u"]
            ⟨true, false, fun _ => some [0], fun _ => true, true, true,
              fun _ => true, fun _ => some [0], fun _ => true, true⟩).result
          = .error "Failed to create HTTP client" :=
  ⟨rfl, by decide, rfl⟩

/-- C3 (amended): once the temp directory has been created and the HTTP
client was constructed, `create_cbz` removes the temp directory on every
exit path — success, partial success, total download failure, and every
packaging error; only the client-construction failure path returns with
the directory left in place. -/
theorem create_cbz_tempdir_removed (outPath tmp : String) (urls : List String)
    (env : CbzEnv) (hne : urls ≠ []) (hmk : env.mkdirTempOk = true)
    (hcl : env.clientOk = true) :
    FsEvent.removeDirAll tmp ∈ (create_cbz outPath tmp urls env).events := by
  rcases urls with _ | ⟨u, us⟩
  · exact absurd rfl hne
  cases hdl : (cbzDownloads tmp env.net env.writeOk (u :: us).enum).2.isEmpty with
  | true =>
    rw [(cbz_events_empty_dl outPath tmp u us env hmk hcl hdl).1]
    simp
  | false =>
    rw [cbz_events_nonempty_dl outPath tmp u us env hmk hcl hdl]
    simp

/-- Witness for the amended C3 theorem: a total-failure call still removes
the temp directory. -/
theorem create_cbz_tempdir_removed_witness :
    FsEvent.removeDirAll "t" ∈ (create_cbz "o.cbz" "t" ["u"]
        ⟨true, true, fun _ => none, fun _ => true, true, true, fun _ => true,
          fun _ => none, fun _ => true, true⟩).events :=
  create_cbz_tempdir_removed "o.cbz" "t" ["u"]
    ⟨true, true, fun _ => none, fun _ => true, true, true, fun _ => true,
      fun _ => none, fun _ => true, true⟩ (by decide) rfl rfl

/-- C2 (counterexample): `rakuyomi_create_cbz_inner` with its single
download failing reports failure (`success: false`) yet creates one file in
the destination: the `chapter.json` summary, written even on total
failure. -/
theorem inner_writes_summary_on_total_failure :
    (rakuyomi_create_cbz_inner "d" ["u"]
          ⟨true, true, fun _ => none, fun _ => true, true⟩).2
        = InnerOut.doneOut false "d/001.jpg" "d" 0
      ∧ (rakuyomi_create_cbz_inner "d" ["u"]
          ⟨true, true, fun _ => none, fun _ => true, true⟩).1.filter createsFile
        = [FsEvent.infoWritten "d/chapter.json" 1 0 "d/001.jpg"] :=
  ⟨by decide, by decide⟩

/-- C2 (amended): when every download fails, `download_chapter_pages`
errors having created no file at all, and `create_cbz` errors having
created and then removed only the temp directory; `rakuyomi_create_cbz_inner`
reports failure (`success: false`, 0 images) but additionally writes its
`chapter.json` summary into the destination even then. -/
theorem total_failure_behavior :
    (∀ (dir : String) (urls : List String) (env : DlEnv), urls ≠ [] →
      env.mkdirOk = true → env.clientOk = true →
      (∀ i, i < urls.length → env.net i = none) →
      (download_chapter_pages dir urls env).result
          = .error "Failed to download any images"
        ∧ (download_chapter_pages dir urls env).events = [.mkdirAll dir]) ∧
    (∀ (outPath tmp : String) (urls : List String) (env : CbzEnv), urls ≠ [] →
      env.mkdirTempOk = true → env.clientOk = true →
      (∀ i, i < urls.length → env.net i = none) →
      (create_cbz outPath tmp urls env).result
          = .error "Failed to download any images"
        ∧ (create_cbz outPath tmp urls env).events
          = [.mkdirAll tmp, .removeDirAll tmp]) ∧
    (∀ (dir : String) (urls : List String) (env : InnerEnv),
      env.mkdirOk = true → env.clientOk = true →
      (∀ i, i < urls.length → env.net i = none) →
      (rakuyomi_create_cbz_inner dir urls env).2
        = .doneOut false (dir ++ "/001.jpg") dir 0) := by
  refine ⟨?_, ?_, ?_⟩
  · intro dir urls env hne hm hc hall
    rcases urls with _ | ⟨u, us⟩
    · exact absurd rfl hne
    have hfilter : ((u :: us).enum.filter fun p =>
        posSuccess env.net env.writeOk p.1) = [] :=
      List.filter_eq_nil_iff.mpr fun p hp => by
        simp [posSuccess, hall p.1 (mem_enum_fst_lt hp)]
    have hcount : ((u :: us).enum.countP fun p =>
        posSuccess env.net env.writeOk p.1) = 0 :=
      List.countP_eq_zero.mpr fun p hp => by
        simp [posSuccess, hall p.1 (mem_enum_fst_lt hp)]
    constructor
    · simp [download_chapter_pages, hm, hc, hcount]
    · rw [dl_events_eq dir u us env hm hc, flatten_dlSteps dir env, hfilter]
      rfl
  · intro outPath tmp urls env hne hmk hcl hall
    rcases urls with _ | ⟨u, us⟩
    · exact absurd rfl hne
    have hfilter : ((u :: us).enum.filter fun p =>
        posSuccess env.net env.writeOk p.1) = [] :=
      List.filter_eq_nil_iff.mpr fun p hp => by
        simp [posSuccess, hall p.1 (mem_enum_fst_lt hp)]
    have hdl : cbzDownloads tmp env.net env.writeOk (u :: us).enum = ([], []) := by
      rw [cbzDownloads_eq tmp env.net env.writeOk, hfilter]
      rfl
    have hemp : (cbzDownloads tmp env.net env.writeOk (u :: us).enum).2.isEmpty
        = true := by rw [hdl]; rfl
    have h := cbz_events_empty_dl outPath tmp u us env hmk hcl hemp
    refine ⟨h.2, ?_⟩
    rw [h.1, hdl]
    rfl
  · intro dir urls env hm hc hall
    have hcount : (urls.enum.countP fun p =>
        posSuccess env.net env.writeOk p.1) = 0 :=
      List.countP_eq_zero.mpr fun p hp => by
        simp [posSuccess, hall p.1 (mem_enum_fst_lt hp)]
    simp [rakuyomi_create_cbz_inner, hm, hc, hcount]

/-- Witness for the amended C2 theorem: single failing URL for each entry
point. -/
theorem total_failure_behavior_witness :
    (download_chapter_pages "d" ["u"]
          ⟨true, true, fun _ => none, fun _ => true⟩).events = [.mkdirAll "d"]
      ∧ (create_cbz "o" "t" ["u"]
          ⟨true, true, fun _ => none, fun _ => true, true, true, fun _ => true,
            fun _ => none, fun _ => true, true⟩).events
        = [.mkdirAll "t", .removeDirAll "t"]
      ∧ (rakuyomi_create_cbz_inner "d" ["u"]
          ⟨true, true, fun _ => none, fun _ => true, false⟩).2
        = .doneOut false ("d" ++ "/001.jpg") "d" 0 := by
  refine ⟨?_, ?_, ?_⟩
  · exact (total_failure_behavior.1 "d" ["u"]
      ⟨true, true, fun _ => none, fun _ => true⟩ (by decide) rfl rfl
      (fun i _ => rfl)).2
  · exact (total_failure_behavior.2.1 "o" "t" ["u"]
      ⟨true, true, fun _ => none, fun _ => true, true, true, fun _ => true,
        fun _ => none, fun _ => true, true⟩ (by decide) rfl rfl
      (fun i _ => rfl)).2
  · exact total_failure_behavior.2.2 "d" ["u"]
      ⟨true, true, fun _ => none, fun _ => true, false⟩ rfl rfl
      (fun i _ => rfl)

/-- C7 (counterexample): in the `rakuyomi_create_cbz_inner` acquisition
path, the file written for a URL with path extension `png` at position 0
is named `001.jpg`, not the `001.png` the claimed derivation
`{i+1:03}.{ext}` produces. -/
theorem inner_filename_ignores_extension :
    (rakuyomi_create_cbz_inner "d" ["https://a.com/p.png"]
          ⟨true, true, fun _ => some [7], fun _ => true, false⟩).1
        = [FsEvent.mkdirAll "d", FsEvent.fileWritten "d/001.jpg" [7]]
      ∧ ("d/001.jpg" : String)
          ≠ "d" ++ "/" ++ pad3 (0 + 1) ++ "."
            ++ ((pathExtension "https://a.com/p.png").getD "jpg") :=
  ⟨by decide, by decide⟩

/-- C7 (amended): in `download_chapter_pages` and in `create_cbz`'s
staging loop, the file persisted for the URL at 0-based position `i` is
named `{i+1:03}.{ext}` with `ext` the URL's path extension defaulting to
`jpg`; in `rakuyomi_create_cbz_inner` the name is always `{i+1:03}.jpg`,
the URL's extension being ignored. -/
theorem filename_derivation :
    (∀ (i : Nat) (url : String), pageFileName i url
        = pad3 (i + 1) ++ "." ++ ((pathExtension url).getD "jpg")) ∧
    (∀ i : Nat, innerFileName i = pad3 (i + 1) ++ ".jpg") ∧
    (∀ (dir : String) (urls : List String) (env : DlEnv) (i : Nat) (url : String),
      env.mkdirOk = true → env.clientOk = true → (i, url) ∈ urls.enum →
      posSuccess env.net env.writeOk i = true →
      FsEvent.fileWritten (dir ++ "/" ++ pageFileName i url) ((env.net i).getD [])
        ∈ (download_chapter_pages dir urls env).events) ∧
    (∀ (tmp : String) (urls : List String) (net : Nat → Option (List Nat))
        (wOk : Nat → Bool) (i : Nat) (url : String),
      (i, url) ∈ urls.enum → posSuccess net wOk i = true →
      (pageFileName i url, tmp ++ "/" ++ pageFileName i url)
        ∈ (cbzDownloads tmp net wOk urls.enum).2) ∧
    (∀ (dir : String) (urls : List String) (env : InnerEnv) (i : Nat) (url : String),
      env.mkdirOk = true → env.clientOk = true → (i, url) ∈ urls.enum →
      posSuccess env.net env.writeOk i = true →
      FsEvent.fileWritten (dir ++ "/" ++ innerFileName i) ((env.net i).getD [])
        ∈ (rakuyomi_create_cbz_inner dir urls env).1) := by
  refine ⟨fun i url => rfl, fun i => rfl, ?_, ?_, ?_⟩
  · intro dir urls env i url hm hc hmem hsucc
    rcases urls with _ | ⟨u, us⟩
    · exact absurd hmem (by simp [List.enum])
    rw [dl_events_eq dir u us env hm hc, flatten_dlSteps dir env]
    have h1 : (i, url) ∈ ((u :: us).enum.filter fun p =>
        posSuccess env.net env.writeOk p.1) := List.mem_filter.mpr ⟨hmem, hsucc⟩
    have h2 := List.mem_map_of_mem
      (fun p : Nat × String =>
        FsEvent.fileWritten (dir ++ "/" ++ pageFileName p.1 p.2)
          ((env.net p.1).getD [])) h1
    exact List.mem_cons_of_mem _ h2
  · intro tmp urls net wOk i url hmem hsucc
    rw [cbzDownloads_eq tmp net wOk]
    have h1 : (i, url) ∈ (urls.enum.filter fun p =>
        posSuccess net wOk p.1) := List.mem_filter.mpr ⟨hmem, hsucc⟩
    have h2 := List.mem_map_of_mem
      (fun p : Nat × String =>
        (pageFileName p.1 p.2, tmp ++ "/" ++ pageFileName p.1 p.2)) h1
    exact h2
  · intro dir urls env i url hm hc hmem hsucc
    rw [inner_events_eq dir urls env hm hc, flatten_innerSteps dir env]
    have h1 : (i, url) ∈ (urls.enum.filter fun p =>
        posSuccess env.net env.writeOk p.1) := List.mem_filter.mpr ⟨hmem, hsucc⟩
    have h2 := List.mem_map_of_mem
      (fun p : Nat × String =>
        FsEvent.fileWritten (dir ++ "/" ++ innerFileName p.1)
          ((env.net p.1).getD [])) h1
    exact List.mem_cons_of_mem _ (List.mem_append_left _ h2)

/-- Witness for the amended C7 theorem: a succeeding `.png` URL at
position 0 in `download_chapter_pages` yields the `001.png` file. -/
theorem filename_derivation_witness :
    FsEvent.fileWritten ("d" ++ "/" ++ pageFileName 0 "https://a.com/p.png") [7]
      ∈ (download_chapter_pages "d" ["https://a.com/p.png"]
          ⟨true, true, fun _ => some [7], fun _ => true⟩).events := by
  exact filename_derivation.2.2.1 "d" ["https://a.com/p.png"]
    ⟨true, true, fun _ => some [7], fun _ => true⟩ 0 "https://a.com/p.png"
    rfl rfl (by decide) rfl

/-! ## Packaging-stage lemmas (C4) -/

/-- Whether the three fallible operations of one zip-entry write (start the
entry, read the staged file, write the bytes) all succeed. -/
def zipStepOk (env : CbzEnv) (i : Nat) (f : String × String) : Bool :=
  env.zipStartOk i && (env.readFile f.2).isSome && env.zipWriteOk i

theorem zipWriteEntries_ok (env : CbzEnv) :
    ∀ (i : Nat) (files : List (String × String)),
      (∀ p ∈ files.enumFrom i, zipStepOk env p.1 p.2 = true) →
      zipWriteEntries env i files
        = .ok (files.map fun f => ⟨f.1, (env.readFile f.2).getD [], 0, 0o644⟩)
  | _, [], _ => rfl
  | i, (name, path) :: files, h => by
    have hf := h (i, (name, path))
      (by rw [List.enumFrom_cons]; exact List.mem_cons_self _ _)
    simp only [zipStepOk, Bool.and_eq_true] at hf
    obtain ⟨⟨h1, h2⟩, h3⟩ := hf
    obtain ⟨d, hd⟩ := Option.isSome_iff_exists.mp h2
    have ih := zipWriteEntries_ok env (i + 1) files fun p hp =>
      h p (by rw [List.enumFrom_cons]; exact List.mem_cons_of_mem _ hp)
    simp [zipWriteEntries, h1, h3, hd, ih, Except.map]

theorem zipWriteEntries_fail (env : CbzEnv) :
    ∀ (i : Nat) (files : List (String × String)),
      (∃ p ∈ files.enumFrom i, zipStepOk env p.1 p.2 = false) →
      ∃ e, zipWriteEntries env i files = .error e
  | _, [], h => by
    obtain ⟨p, hp, _⟩ := h
    exact absurd hp (by simp)
  | i, (name, path) :: files, h => by
    by_cases h1 : env.zipStartOk i = true
    · cases hr : env.readFile path with
      | none =>
        exact ⟨"Failed to read image file", by simp [zipWriteEntries, h1, hr]⟩
      | some d =>
        by_cases h3 : env.zipWriteOk i = true
        · obtain ⟨p, hp, hfail⟩ := h
          rw [List.enumFrom_cons] at hp
          rcases List.mem_cons.mp hp with rfl | hp
          · exfalso
            revert hfail
            simp [zipStepOk, h1, hr, h3]
          · obtain ⟨e, he⟩ := zipWriteEntries_fail env (i + 1) files ⟨p, hp, hfail⟩
            exact ⟨e, by simp [zipWriteEntries, h1, hr, h3, he, Except.map]⟩
        · exact ⟨"Failed to write to zip", by simp [zipWriteEntries, h1, hr, h3]⟩
    · exact ⟨"Failed to start file in zip", by simp [zipWriteEntries, h1]⟩

/-- C4: with `File::create` and `zip.finish` succeeding and every
per-entry operation succeeding, the archive holds exactly one entry per
downloaded file, in the order of the `downloaded_files` list, each with
the staged file's bytes, the Stored method (0) and permissions `0o644`;
any failing entry operation fails the whole packaging call; and any
archive `create_cbz` delivers is exactly the successful result of this
packaging stage over its staged downloads. -/
theorem cbz_packaging_roundtrip (env : CbzEnv) (files : List (String × String)) :
    (env.createFileOk = true → env.zipFinishOk = true →
      (∀ p ∈ files.enumFrom 0, zipStepOk env p.1 p.2 = true) →
      cbzWriteArchive env files
        = .ok (files.map fun f => ⟨f.1, (env.readFile f.2).getD [], 0, 0o644⟩)) ∧
    ((∃ p ∈ files.enumFrom 0, zipStepOk env p.1 p.2 = false) →
      ∃ e, cbzWriteArchive env files = .error e) ∧
    (∀ (outPath tmp : String) (urls : List String) (entries : List ZipEntry),
      (create_cbz outPath tmp urls env).archive = some entries →
      cbzWriteArchive env (cbzDownloads tmp env.net env.writeOk urls.enum).2
        = .ok entries) := by
  refine ⟨?_, ?_, ?_⟩
  · intro hcf hzf hall
    rw [cbzWriteArchive, zipWriteEntries_ok env 0 files hall]
    simp [hcf, hzf]
  · intro hex
    obtain ⟨e, he⟩ := zipWriteEntries_fail env 0 files hex
    by_cases hcf : env.createFileOk = true
    · exact ⟨e, by simp [cbzWriteArchive, hcf, he]⟩
    · exact ⟨"Failed to create CBZ file", by simp [cbzWriteArchive, hcf]⟩
  · intro outPath tmp urls entries harch
    rcases urls with _ | ⟨u, us⟩
    · exact absurd harch (by simp [create_cbz])
    by_cases hmk : env.mkdirTempOk = true
    · by_cases hcl : env.clientOk = true
      · by_cases he2 : (cbzDownloads tmp env.net env.writeOk
            (u :: us).enum).2.isEmpty
        · rw [show (create_cbz outPath tmp (u :: us) env).archive = none from by
            simp [create_cbz, hmk, hcl, he2]] at harch
          exact Option.noConfusion harch
        · simp only [create_cbz, List.isEmpty_cons, Bool.false_eq_true, if_false,
            hmk, hcl, Bool.not_true, he2, ite_false] at harch
          split at harch
          · next entries' heq =>
            simp only at harch
            rw [heq, Option.some_inj.mp harch]
          · next e heq => exact Option.noConfusion harch
      · rw [show (create_cbz outPath tmp (u :: us) env).archive = none from by
          simp [create_cbz, hmk, hcl]] at harch
        exact Option.noConfusion harch
    · rw [show (create_cbz outPath tmp (u :: us) env).archive = none from by
        simp [create_cbz, hmk]] at harch
      exact Option.noConfusion harch

/-- Witness for C4: two staged files, all operations succeeding. -/
theorem cbz_packaging_roundtrip_witness :
    cbzWriteArchive
        ⟨true, true, fun _ => none, fun _ => true, true, true, fun _ => true,
          fun _ => some [1, 2], fun _ => true, true⟩
        [("001.jpg", "t/001.jpg"), ("002.png", "t/002.png")]
      = .ok [⟨"001.jpg", [1, 2], 0, 0o644⟩, ⟨"002.png", [1, 2], 0, 0o644⟩] := by
  have h := (cbz_packaging_roundtrip
    ⟨true, true, fun _ => none, fun _ => true, true, true, fun _ => true,
      fun _ => some [1, 2], fun _ => true, true⟩
    [("001.jpg", "t/001.jpg"), ("002.png", "t/002.png")]).1 rfl rfl (by decide)
  exact h.trans rfl

/-! ## Number-parsing lemmas (C8) -/

theorem splitWhen_not (p : Char → Bool) :
    ∀ l : List Char, (∀ c ∈ l, p c = false) → splitWhen p l = [l]
  | [], _ => rfl
  | c :: rest, h => by
    have hc := h c (List.mem_cons_self c rest)
    have ih := splitWhen_not p rest fun d hd => h d (List.mem_cons_of_mem c hd)
    simp [splitWhen, hc, ih]

theorem splitWhen_append (p : Char → Bool) (sep : Char) (hsep : p sep = true) :
    ∀ (a b : List Char), (∀ c ∈ a, p c = false) →
      splitWhen p (a ++ sep :: b) = a :: splitWhen p b
  | [], b, _ => by simp [splitWhen, hsep]
  | c :: a, b, h => by
    have hc := h c (List.mem_cons_self c a)
    have ih := splitWhen_append p sep hsep a b fun d hd =>
      h d (List.mem_cons_of_mem c hd)
    simp [splitWhen, hc, ih]

theorem isDigit_beq_dot {c : Char} (h : c.isDigit = true) : (c == '.') = false := by
  cases hbe : (c == '.') with
  | false => rfl
  | true =>
    have : c = '.' := eq_of_beq hbe
    subst this
    exact absurd h (by decide)

theorem isDigit_ne_sign {c : Char} (h : c.isDigit = true) : c ≠ '-' ∧ c ≠ '+' := by
  constructor <;> (rintro rfl; exact absurd h (by decide))

/-- Modelled from the spec: "the last numeric token in the chapter
title/link text" — the last whitespace-separated token that parses as a
float. -/
def lastNumericToken (s : String) : Option String :=
  ((((splitWhen Char.isWhitespace s.data).filter (· ≠ [])).map String.mk).filter
    (fun t => (rustParseFloat t).isSome)).getLast?

theorem mpRawChapters_map_num (mid : String) :
    ∀ caps : List (String × String × String),
      (mpRawChapters mid caps).map (·.chapter_number)
        = (caps.filter fun c => c.1 ≠ "").map
            (fun c => (rustParseFloat
                (if c.2.2 = "" then c.2.1 else c.2.1 ++ "." ++ c.2.2)).getD 0)
  | [] => rfl
  | cap :: caps => by
    have ih := mpRawChapters_map_num mid caps
    simp only [mpRawChapters] at ih ⊢
    by_cases h : cap.1 = "" <;>
      simp [List.filterMap_cons, List.filter_cons, h, ih]

theorem wcChapterItems_map_num (mid : String) :
    ∀ pairs : List (Nat × (String × String)),
      ((pairs.filterMap (wcChapterItem mid)).map (·.chapter_number))
        = (pairs.filter fun p => dropPrefixOrEmpty wcBaseUrl p.2.1 ≠ "").map
            (fun p => wcChapterNumber (rustTrim p.2.2) p.1)
  | [] => rfl
  | cap :: pairs => by
    have ih := wcChapterItems_map_num mid pairs
    by_cases h : dropPrefixOrEmpty wcBaseUrl cap.2.1 = "" <;>
      simp [wcChapterItem, List.filterMap_cons, List.filter_cons, h, ih]

/-- C8 (counterexample): for the WeebCentral chapter span
`"Chapter 5 rev"` (one captured item with a nonempty id), the produced
chapter number is the positional-index fallback `0`, although the last
numeric token of the text is `"5"`, which parses to `5`. -/
theorem wc_last_numeric_token_counterexample :
    (wcRawChapters "m" [("https://weebcentral.com/chapters/x", "Chapter 5 rev")]).map
        (·.chapter_number) = [((0 : Nat) : ℚ)]
      ∧ lastNumericToken "Chapter 5 rev" = some "5"
      ∧ rustParseFloat "5" = some ((5 : Nat) : ℚ)
      ∧ ((0 : Nat) : ℚ) ≠ ((5 : Nat) : ℚ) := by
  refine ⟨rfl, rfl, rfl, ?_⟩
  norm_num

/-- C8 (amended): MangaPill recombines the two captured groups as
`whole.fractional` and parses that as a float (falling back to `0.0`), the
parse of such a recombined digit literal being its exact decimal value;
WeebCentral parses the token after the last space of the trimmed title,
falling back to the item's positional index among all matches when the
title has no space or the token does not parse. -/
theorem chapter_number_policy :
    (∀ (mid : String) (caps : List (String × String × String)),
      (mpRawChapters mid caps).map (·.chapter_number)
        = (caps.filter fun c => c.1 ≠ "").map
            (fun c => (rustParseFloat
                (if c.2.2 = "" then c.2.1 else c.2.1 ++ "." ++ c.2.2)).getD 0)) ∧
    (∀ w f : String, w.data ≠ [] → w.data.all Char.isDigit = true →
      f.data.all Char.isDigit = true →
      rustParseFloat (if f = "" then w else w ++ "." ++ f)
        = some ((digitsVal w.data : ℚ)
            + (digitsVal f.data : ℚ) / 10 ^ f.data.length)) ∧
    (∀ (mid : String) (caps : List (String × String)),
      (wcRawChapters mid caps).map (·.chapter_number)
        = (caps.enum.filter fun p => dropPrefixOrEmpty wcBaseUrl p.2.1 ≠ "").map
            (fun p => wcChapterNumber (rustTrim p.2.2) p.1)) := by
  refine ⟨mpRawChapters_map_num, ?_, fun mid caps => wcChapterItems_map_num mid caps.enum⟩
  intro w f hw hdw hdf
  have hwdot : ∀ c ∈ w.data, (c == '.') = false := fun c hc =>
    isDigit_beq_dot (List.all_eq_true.mp hdw c hc)
  have hfdot : ∀ c ∈ f.data, (c == '.') = false := fun c hc =>
    isDigit_beq_dot (List.all_eq_true.mp hdf c hc)
  by_cases hf : f = ""
  · subst hf
    rw [if_pos rfl]
    cases hwdata : w.data with
    | nil => exact absurd hwdata hw
    | cons c cs =>
      have hcd : c.isDigit = true :=
        List.all_eq_true.mp hdw c (hwdata ▸ List.mem_cons_self c cs)
      have hcm := isDigit_ne_sign hcd
      unfold rustParseFloat
      split
      · next r heq =>
        exfalso
        rw [hwdata] at heq
        injection heq with h1 _
        exact hcm.1 h1
      · next r heq =>
        exfalso
        rw [hwdata] at heq
        injection heq with h1 _
        exact hcm.2 h1
      · unfold rustParseFloatPos
        have hsplit : splitOnDot w.data = [w.data] := splitWhen_not _ _ hwdot
        rw [hsplit]
        show (if w.data ≠ [] ∧ w.data.all Char.isDigit = true then
            some ((digitsVal w.data : ℚ)) else none) = _
        rw [if_pos ⟨hw, hdw⟩, ← hwdata]
        congr 1
        rw [show digitsVal ("" : String).data = 0 from rfl,
          show ("" : String).data.length = 0 from rfl]
        norm_num
  · rw [if_neg hf]
    have hfd : f.data ≠ [] := fun hnil => hf (String.ext hnil)
    have hdata : (w ++ "." ++ f).data = w.data ++ '.' :: f.data := by
      simp [String.data_append]
    cases hwdata : w.data with
    | nil => exact absurd hwdata hw
    | cons c cs =>
      have hcd : c.isDigit = true :=
        List.all_eq_true.mp hdw c (hwdata ▸ List.mem_cons_self c cs)
      have hcm := isDigit_ne_sign hcd
      unfold rustParseFloat
      split
      · next r heq =>
        exfalso
        rw [hdata, hwdata] at heq
        rw [List.cons_append] at heq
        injection heq with h1 _
        exact hcm.1 h1
      · next r heq =>
        exfalso
        rw [hdata, hwdata] at heq
        rw [List.cons_append] at heq
        injection heq with h1 _
        exact hcm.2 h1
      · unfold rustParseFloatPos
        have hsplit : splitOnDot (w ++ "." ++ f).data = [w.data, f.data] := by
          rw [hdata]
          show splitWhen (fun c => c == '.') (w.data ++ '.' :: f.data) = _
          rw [splitWhen_append _ '.' rfl w.data f.data hwdot,
            splitWhen_not _ f.data hfdot]
        rw [hsplit]
        show (if (w.data ≠ [] ∨ f.data ≠ []) ∧ w.data.all Char.isDigit = true
              ∧ f.data.all Char.isDigit = true then
            some ((digitsVal w.data : ℚ)
              + (digitsVal f.data : ℚ) / 10 ^ f.data.length)
          else none) = _
        rw [if_pos ⟨Or.inl hw, hdw, hdf⟩, ← hwdata]

/-- Witness for the amended C8 theorem: the captured groups `"12"` and
`"5"` recombine to `12.5` and parse to `25/2` exactly. -/
theorem chapter_number_policy_witness :
    rustParseFloat "12.5" = some ((25 : ℚ) / 2) := by
  have h := chapter_number_policy.2.1 "12" "5" (by decide) (by decide) (by decide)
  rw [show (if ("5" : String) = "" then ("12" : String) else "12" ++ "." ++ "5")
      = "12.5" from rfl] at h
  rw [h, show digitsVal ("12" : String).data = 12 from rfl,
    show digitsVal ("5" : String).data = 5 from rfl]
  norm_num
